import Mathlib

/-!
Shallow embedding of the PICO face-detection engine (meefik/picoface,
src/unnamed/part_001) and proofs about its specification claims.

Machine-arithmetic conventions of the JavaScript source are made explicit:
`x | 0` and the operands of `>>` are converted with ToInt32 (wrap modulo
2^32 into [-2^31, 2^31)); `>>` is an arithmetic shift, i.e. floor division
by a power of two; `Math.cos` / `Math.sin` are modeled by the exact real
functions (the discrepancies proved below are orders of magnitude larger
than double-precision rounding error).  Scores and thresholds (Float32 in
the source) are modeled by rationals: every claim about them is about
control flow and index arithmetic, not rounding.
-/

/-- ToInt32: wrap an integer of a JavaScript number into [-2^31, 2^31). -/
def toInt32 (x : ℤ) : ℤ := (x + 2 ^ 31) % 2 ^ 32 - 2 ^ 31

/-- JavaScript `x >> 16`: ToInt32 the operand, then arithmetic shift right by
16, i.e. floor division by 65536 (Int division is Euclidean, which is floor
division for a positive divisor). -/
def asr16 (x : ℤ) : ℤ := toInt32 x / 65536

/-- JavaScript `r << 16` as used for the window centers. -/
def jsShl16 (r : ℕ) : ℤ := toInt32 ((r : ℤ) * 65536)

/-- The source computes `rr = r << 16; ... (rr >> 16)` for the window center
row/col before adding sampling offsets. -/
def centerCoord (r : ℕ) : ℤ := asr16 (jsShl16 r)

/-- JavaScript `v | 0` applied to a real-valued double: truncation toward
zero (the wrap of ToInt32 is applied separately by `toInt32`). -/
noncomputable def jsTrunc (x : ℝ) : ℤ := if 0 ≤ x then ⌊x⌋ else -⌊-x⌋

/-- Fixed-point cosine table built at decode time:
`qcostable[i] = (Math.cos(i*PI/180) * 256) | 0` (source lines 92-96). -/
noncomputable def qcostable (i : ℕ) : ℤ :=
  toInt32 (jsTrunc (Real.cos ((i : ℝ) * Real.pi / 180) * 256))

/-- Fixed-point sine table built at decode time:
`qsintable[i] = (Math.sin(i*PI/180) * 256) | 0` (source lines 92-96). -/
noncomputable def qsintable (i : ℕ) : ℤ :=
  toInt32 (jsTrunc (Real.sin ((i : ℝ) * Real.pi / 180) * 256))

/-- Row component of a precomputed rotated offset (source line 128/130):
`(qcos*t0 - qsin*t1) >> 16` with `qcos = s*qcostable[a]`, `qsin = s*qsintable[a]`. -/
noncomputable def rotOffsetR (s a : ℕ) (t0 t1 : ℤ) : ℤ :=
  asr16 ((s : ℤ) * qcostable a * t0 - (s : ℤ) * qsintable a * t1)

/-- Column component of a precomputed rotated offset (source line 129/131):
`(qsin*t0 + qcos*t1) >> 16`. -/
noncomputable def rotOffsetC (s a : ℕ) (t0 t1 : ℤ) : ℤ :=
  asr16 ((s : ℤ) * qsintable a * t0 + (s : ℤ) * qcostable a * t1)

/-- A raw detection `[r, c, s, q, a]` (row, col, size, quality, angle). -/
structure Det where
  r : ℕ
  c : ℕ
  s : ℕ
  q : ℚ
  a : ℤ
deriving DecidableEq

/-- A cluster representative `{r, c, s, q, a}` (source lines 243-249). -/
structure Cluster where
  r : ℕ
  c : ℕ
  s : ℕ
  q : ℚ
  a : ℤ
deriving DecidableEq

/-- Pixel sampling `pixels[k] | 0`: an out-of-range read of the typed array
yields `undefined`, and `undefined | 0 = 0`. -/
def samplePix (pix : List ℕ) (k : ℤ) : ℕ :=
  if k < 0 then 0 else pix.getD k.toNat 0

/-- One tree walk (source lines 148-160): start at node index 1 and descend
`tdepth` times; at node `idx` read the four offsets at `baseNode + idx*4`,
sample the two pixels and go to child `2*idx + (1 if p1 <= p2 else 0)`. -/
def walkTree (pix : List ℕ) (width : ℤ) (off : ℕ → ℤ) (baseNode : ℕ)
    (rb cb : ℤ) : ℕ → ℕ → ℕ
  | 0, idx => idx
  | Nat.succ j, idx =>
    let oi := baseNode + idx * 4
    let p1 := samplePix pix ((rb + off oi) * width + (cb + off (oi + 1)))
    let p2 := samplePix pix ((rb + off (oi + 2)) * width + (cb + off (oi + 3)))
    walkTree pix width off baseNode rb cb j (2 * idx + if p1 ≤ p2 then 1 else 0)

/-- Leaf path index produced by tree `i` for the window centered at `(r, c)`:
the source walks from node index 1 with `baseNode = i * pow2tdepth * 4` and
center coordinates `(rr >> 16, cc >> 16)`. -/
def leafIndex (pix : List ℕ) (width : ℤ) (off : ℕ → ℤ) (tdepth i r c : ℕ) : ℕ :=
  walkTree pix width off (i * 2 ^ tdepth * 4) (centerCoord r) (centerCoord c) tdepth 1

/-- Read of the flat `tpreds` Float32Array at a possibly negative index; a
negative index never occurs on the executed path (proved below). -/
def predAtZ (tpreds : ℕ → ℚ) (z : ℤ) : ℚ :=
  if 0 ≤ z then tpreds z.toNat else 0

/-- Source tree loop (lines 147-166): for tree `i` add
`tpreds[pow2tdepth*(i-1) + idx]` to the score; if the score is `<=`
`thresh[i]` reject immediately (`o = 0; break`, modeled as `none`). -/
def runTreeLoop (pow2 : ℕ) (tpreds thresh : ℕ → ℚ) (leafIdx : ℕ → ℕ) :
    ℕ → ℕ → ℚ → Option ℚ
  | _, 0, o => some o
  | i, Nat.succ k, o =>
    let idx := leafIdx i
    let o' := o + predAtZ tpreds ((pow2 : ℤ) * ((i : ℤ) - 1) + (idx : ℤ))
    if o' ≤ thresh i then none else runTreeLoop pow2 tpreds thresh leafIdx (i + 1) k o'

/-- Claim-side tree loop: identical walk and early exit, but the added value
is named as the leaf prediction of tree `i` at leaf `idx - 2^D`, i.e.
`tpreds[2^D * i + (idx - 2^D)]` in the flat per-tree layout. -/
def specTreeLoop (pow2 : ℕ) (tpreds thresh : ℕ → ℚ) (leafIdx : ℕ → ℕ) :
    ℕ → ℕ → ℚ → Option ℚ
  | _, 0, o => some o
  | i, Nat.succ k, o =>
    let o' := o + tpreds (pow2 * i + (leafIdx i - pow2))
    if o' ≤ thresh i then none else specTreeLoop pow2 tpreds thresh leafIdx (i + 1) k o'

/-- Source per-window, per-angle evaluation (lines 147-173): run the tree
loop; on survival emit one detection if `o > 0` and `q = o - thresh[ntrees-1]`
is positive. -/
def runWindow (pix : List ℕ) (width : ℤ) (off : ℕ → ℤ) (tpreds thresh : ℕ → ℚ)
    (tdepth ntrees r c s : ℕ) (a : ℤ) : List Det :=
  match runTreeLoop (2 ^ tdepth) tpreds thresh (fun i => leafIndex pix width off tdepth i r c) 0 ntrees 0 with
  | none => []
  | some o =>
    if 0 < o then
      if 0 < o - thresh (ntrees - 1) then [⟨r, c, s, o - thresh (ntrees - 1), a⟩] else []
    else []

/-- The window behavior described by claim C1 verbatim: if all trees pass and
the final score minus the last tree's threshold is positive, exactly one raw
detection with that margin as quality is emitted. -/
def claimWindow (pix : List ℕ) (width : ℤ) (off : ℕ → ℤ) (tpreds thresh : ℕ → ℚ)
    (tdepth ntrees r c s : ℕ) (a : ℤ) : List Det :=
  match specTreeLoop (2 ^ tdepth) tpreds thresh (fun i => leafIndex pix width off tdepth i r c) 0 ntrees 0 with
  | none => []
  | some o =>
    if 0 < o - thresh (ntrees - 1) then [⟨r, c, s, o - thresh (ntrees - 1), a⟩] else []

/-- Amended window behavior: as claim C1, but a detection is emitted only
when additionally the final accumulated score itself is positive (the extra
`o > 0` guard of source line 168). -/
def amendedWindow (pix : List ℕ) (width : ℤ) (off : ℕ → ℤ) (tpreds thresh : ℕ → ℚ)
    (tdepth ntrees r c s : ℕ) (a : ℤ) : List Det :=
  match specTreeLoop (2 ^ tdepth) tpreds thresh (fun i => leafIndex pix width off tdepth i r c) 0 ntrees 0 with
  | none => []
  | some o =>
    if 0 < o then
      if 0 < o - thresh (ntrees - 1) then [⟨r, c, s, o - thresh (ntrees - 1), a⟩] else []
    else []

/-- Row overlap of two detections (source lines 195-198). -/
def rowOverlap (det1 det2 : Det) : ℚ :=
  max 0 (min ((det1.r : ℚ) + (det1.s : ℚ) / 2) ((det2.r : ℚ) + (det2.s : ℚ) / 2) -
    max ((det1.r : ℚ) - (det1.s : ℚ) / 2) ((det2.r : ℚ) - (det2.s : ℚ) / 2))

/-- Column overlap of two detections (source lines 199-202). -/
def colOverlap (det1 det2 : Det) : ℚ :=
  max 0 (min ((det1.c : ℚ) + (det1.s : ℚ) / 2) ((det2.c : ℚ) + (det2.s : ℚ) / 2) -
    max ((det1.c : ℚ) - (det1.s : ℚ) / 2) ((det2.c : ℚ) - (det2.s : ℚ) / 2))

/-- Detection overlap (source lines 190-207):
`(or * oc) / (ms * ms)` with `ms = min(s1, s2)`.  For `ms = 0` the source
produces NaN (0/0); rationals yield 0; neither equals 1, and neither exceeds
a nonnegative clustering threshold. -/
def calcOverlap (det1 det2 : Det) : ℚ :=
  rowOverlap det1 det2 * colOverlap det1 det2 /
    (min (det1.s : ℚ) (det2.s : ℚ) * min (det1.s : ℚ) (det2.s : ℚ))

/-- Descending-quality order used by `dets.sort((a, b) => b[3] - a[3])`. -/
def qDesc (det1 det2 : Det) : Prop := det2.q ≤ det1.q

instance : DecidableRel qDesc := fun det1 det2 => inferInstanceAs (Decidable (det2.q ≤ det1.q))

instance : IsTotal Det qDesc := ⟨fun det1 det2 => le_total det2.q det1.q⟩

instance : IsTrans Det qDesc := ⟨fun _ _ _ h1 h2 => le_trans h2 h1⟩

/-- The sort of source line 217: JavaScript `Array.prototype.sort` is stable,
so it is modeled by stable insertion sort under the descending-quality
order. -/
def sortByQ (dets : List Det) : List Det := List.insertionSort qDesc dets

def sumR (l : List Det) : ℕ := (l.map Det.r).sum

def sumC (l : List Det) : ℕ := (l.map Det.c).sum

def sumS (l : List Det) : ℕ := (l.map Det.s).sum

def sumQ (l : List Det) : ℚ := (l.map Det.q).sum

/-- Cluster representative (source lines 243-249): integer-truncated means of
row/col/size over the seed and the merged members, summed quality, seed's
angle.  Sums of naturals are nonnegative, so `|0` is floor division. -/
def emitCluster (seed : Det) (mem : List Det) : Cluster :=
  ⟨(seed.r + sumR mem) / (1 + mem.length), (seed.c + sumC mem) / (1 + mem.length),
    (seed.s + sumS mem) / (1 + mem.length), seed.q + sumQ mem, seed.a⟩

/-- Result of the inner scan of source lines 230-241 over the tail of the
sorted list: sums and count of the newly consumed members, and the tail with
its updated assignment flags. -/
structure ScanOut where
  sr : ℕ
  sc : ℕ
  ss : ℕ
  sq : ℚ
  n : ℕ
  rest : List (Det × Bool)
deriving DecidableEq

/-- Inner scan (source lines 230-241): walk the later detections; skip the
already-assigned ones; consume (mark and accumulate) each one whose overlap
with the seed exceeds the threshold. -/
def scanMembers (seed : Det) (τ : ℚ) : List (Det × Bool) → ScanOut
  | [] => ⟨0, 0, 0, 0, 0, []⟩
  | (d, b) :: rest =>
    let out := scanMembers seed τ rest
    if b then ⟨out.sr, out.sc, out.ss, out.sq, out.n, (d, true) :: out.rest⟩
    else if τ < calcOverlap seed d then
      ⟨d.r + out.sr, d.c + out.sc, d.s + out.ss, d.q + out.sq, out.n + 1, (d, true) :: out.rest⟩
    else ⟨out.sr, out.sc, out.ss, out.sq, out.n, (d, false) :: out.rest⟩

/-- Outer loop of source lines 221-250 over the sorted, flagged list: skip
assigned detections, otherwise open a cluster, scan the tail for members and
emit the representative.  The fuel argument is instantiated with the list
length, which the scan preserves, so it never runs out. -/
def clusterLoop (τ : ℚ) : ℕ → List (Det × Bool) → List Cluster
  | 0, _ => []
  | _, [] => []
  | Nat.succ fuel, (d, b) :: rest =>
    if b then clusterLoop τ fuel rest
    else
      let out := scanMembers d τ rest
      ⟨(d.r + out.sr) / (1 + out.n), (d.c + out.sc) / (1 + out.n),
        (d.s + out.ss) / (1 + out.n), d.q + out.sq, d.a⟩ :: clusterLoop τ fuel out.rest

/-- Source `clusterDetections` (lines 215-252): sort by descending quality,
then greedy non-maximum suppression with assignment flags. -/
def clusterDetections (dets : List Det) (τ : ℚ) : List Cluster :=
  let sorted := sortByQ dets
  clusterLoop τ sorted.length (sorted.map fun d => (d, false))

/-- Clustering as described by claim C3, on the sorted list: the head seeds a
cluster; every later detection whose overlap with the seed exceeds the
threshold is folded in; the rest is clustered recursively.  Each entry pairs
the seed with the emitted cluster, in creation order. -/
def specNMS (τ : ℚ) : List Det → List (Det × Cluster)
  | [] => []
  | d :: rest =>
    (d, emitCluster d (rest.filter fun e => decide (τ < calcOverlap d e))) ::
      specNMS τ (rest.filter fun e => !decide (τ < calcOverlap d e))
termination_by l => l.length
decreasing_by simp only [List.length_cons]; exact Nat.lt_succ_of_le (List.length_filter_le _ _)

/-- State of the temporal ring buffer (source lines 260-266): write index `n`
and the per-frame raw-detection slots. -/
structure MemState where
  n : ℕ
  slots : List (List Det)
deriving DecidableEq

/-- Source `updateMemory` (lines 270-278): overwrite slot `n` with this
frame's detections, advance `n` modulo the capacity, and return the
concatenation of all slots in slot-index order. -/
def updateMemory (st : MemState) (dets : List Det) : MemState × List Det :=
  let slots := st.slots.set st.n dets
  (⟨(st.n + 1) % slots.length, slots⟩, slots.flatten)

/-- One detection call (source lines 41-46) on an abstract frame type: the
per-frame raw-detector is a pure function of the frame (the cascade closure
mutates nothing), its output is merged through the temporal memory, and the
merged list is clustered. -/
def detectPipe {α : Type} (raw : α → List Det) (τ : ℚ) (st : MemState) (img : α) :
    MemState × List Cluster :=
  let p := updateMemory st (raw img)
  (p.1, clusterDetections p.2 τ)

/-- Errors of cascade decoding.  The source has no explicit bounds checks and
no `MalformedCascade` value; `DataView` reads throw a host `RangeError` when
out of range, which is the only failure the decoder can produce.
`malformedCascade` exists only to state the claim. -/
inductive CascadeError where
  | rangeError : CascadeError
  | malformedCascade : CascadeError
deriving DecidableEq

instance {ε α : Type} [DecidableEq ε] [DecidableEq α] : DecidableEq (Except ε α) :=
  fun x y =>
    match x, y with
    | Except.error a, Except.error b =>
      if h : a = b then isTrue (by rw [h]) else isFalse (by intro hc; cases hc; exact h rfl)
    | Except.error _, Except.ok _ => isFalse (fun hc => Except.noConfusion hc)
    | Except.ok _, Except.error _ => isFalse (fun hc => Except.noConfusion hc)
    | Except.ok a, Except.ok b =>
      if h : a = b then isTrue (by rw [h]) else isFalse (by intro hc; cases hc; exact h rfl)

/-- Byte of the cascade buffer at an integer position, 0 out of range (used
only for the clamped `subarray` copy of the tree codes, whose bytes beyond
the buffer keep the preallocated zeros). -/
def byteAt (b : List ℕ) (k : ℤ) : ℕ :=
  if k < 0 then 0 else b.getD k.toNat 0

/-- Little-endian 32-bit word made of four buffer bytes. -/
def word32At (b : List ℕ) (p : ℤ) : ℕ :=
  byteAt b p + 256 * byteAt b (p + 1) + 65536 * byteAt b (p + 2) + 16777216 * byteAt b (p + 3)

/-- `DataView.getInt32(p, true)`: bounds-checked little-endian signed read;
out of range throws `RangeError`. -/
def getInt32LE (b : List ℕ) (p : ℤ) : Except CascadeError ℤ :=
  if 0 ≤ p ∧ p + 4 ≤ (b.length : ℤ) then Except.ok (toInt32 (word32At b p))
  else Except.error CascadeError.rangeError

/-- `DataView.getFloat32(p, true)`: bounds-checked read.  Decoding claims
never depend on the decoded float value, so the raw 32-bit word is kept. -/
def getF32Word (b : List ℕ) (p : ℤ) : Except CascadeError ℕ :=
  if 0 ≤ p ∧ p + 4 ≤ (b.length : ℤ) then Except.ok (word32At b p)
  else Except.error CascadeError.rangeError

/-- Signed value of a raw byte, as stored in the `Int8Array` of tree codes. -/
def int8OfByte (v : ℕ) : ℤ :=
  if v < 128 then (v : ℤ) else (v : ℤ) - 256

/-- The clamped `tcodes.set(bytes.subarray(p, p + len), ...)` copy of source
line 78: bytes beyond the buffer end keep the preallocated zeros, and no
error is raised. -/
def readTcodes (b : List ℕ) (p : ℤ) (len : ℕ) : List ℤ :=
  (List.range len).map fun j => int8OfByte (byteAt b (p + (j : ℤ)))

/-- The `pow2tdepth` float reads of source lines 81-84. -/
def readFloats (b : List ℕ) : ℕ → ℤ → Except CascadeError (List ℕ × ℤ)
  | 0, p => Except.ok ([], p)
  | Nat.succ k, p =>
    match getF32Word b p with
    | Except.error e => Except.error e
    | Except.ok w =>
      match readFloats b k (p + 4) with
      | Except.error e => Except.error e
      | Except.ok (ws, p') => Except.ok (w :: ws, p')

/-- Per-tree reads of source lines 69-88: the clamped tree-code copy (which
advances the cursor by `4*pow2tdepth - 4` regardless of the buffer length),
the `pow2tdepth` leaf-prediction floats, and the threshold float. -/
def readTrees (b : List ℕ) (pow2 : ℤ) : ℕ → ℤ → Except CascadeError (List ℤ × List ℕ × List ℕ × ℤ)
  | 0, p => Except.ok ([], [], [], p)
  | Nat.succ k, p =>
    let sliceLen := 4 * pow2 - 4
    let tc := readTcodes b p sliceLen.toNat
    match readFloats b pow2.toNat (p + sliceLen) with
    | Except.error e => Except.error e
    | Except.ok (ws, p2) =>
      match getF32Word b p2 with
      | Except.error e => Except.error e
      | Except.ok w =>
        match readTrees b pow2 k (p2 + 4) with
        | Except.error e => Except.error e
        | Except.ok (tcs, pws, tws, p3) => Except.ok (tc ++ tcs, ws ++ pws, w :: tws, p3)

/-- The decoded cascade: depth and tree count as read, flat signed tree
codes, and the raw words of the leaf predictions and thresholds. -/
structure UnpackedCascade where
  tdepth : ℤ
  ntrees : ℤ
  tcodes : List ℤ
  tpredWords : List ℕ
  threshWords : List ℕ
deriving DecidableEq

/-- JavaScript `1 << tdepth`: the shift count is the low five bits of the
32-bit value. -/
def jsShl1 (d : ℤ) : ℤ := toInt32 (2 ^ (d % 32).toNat)

/-- Source `unpackCascade` (lines 54-88): skip 8 header bytes, read the tree
depth and tree count as little-endian int32, then read the per-tree data. -/
def unpackCascade (b : List ℕ) : Except CascadeError UnpackedCascade :=
  match getInt32LE b 8 with
  | Except.error e => Except.error e
  | Except.ok d =>
    match getInt32LE b 12 with
    | Except.error e => Except.error e
    | Except.ok t =>
      match readTrees b (jsShl1 d) t.toNat 16 with
      | Except.error e => Except.error e
      | Except.ok (tcs, pws, tws, _) => Except.ok ⟨d, t, tcs, pws, tws⟩

/-- One step of the multiscale loop (source line 177): `s = (s / scalefactor) | 0`;
the quotient of nonnegative values is truncated to its floor. -/
def nextScale (sf : ℚ) (s : ℕ) : ℕ := (⌊(s : ℚ) / sf⌋).toNat

/-- Termination of the scale loop of source lines 102-178: some number of
iterations of the shrink step takes the start size below `minsize`. -/
def scanTerminates (sf : ℚ) (s0 minsize : ℕ) : Prop :=
  ∃ k : ℕ, (nextScale sf)^[k] s0 < minsize

/-- Concrete 20-byte cascade buffer: depth 0 and tree count 1 in the header,
so the declared layout is 16 + 1*(4*1 - 4 + 4*1 + 4) = 24 bytes, and the
buffer is 4 bytes short: the final threshold read is out of range. -/
def shortBuf : List ℕ :=
  [0, 0, 0, 0, 0, 0, 0, 0, 0, 0, 0, 0, 1, 0, 0, 0, 0, 0, 0, 0]

/-- Detections of a flagged list that are not (yet) assigned to a cluster. -/
def live (lst : List (Det × Bool)) : List Det :=
  (lst.filter fun p => !p.2).map Prod.fst

theorem toInt32_eq_self {x : ℤ} (h1 : -(2 ^ 31) ≤ x) (h2 : x < 2 ^ 31) : toInt32 x = x := by
  unfold toInt32
  rw [Int.emod_eq_of_lt (by omega) (by omega)]
  omega

theorem asr16_no_wrap {x : ℤ} (h1 : -(2 ^ 31) ≤ x) (h2 : x < 2 ^ 31) :
    asr16 x = x / 65536 := by
  unfold asr16
  rw [toInt32_eq_self h1 h2]

theorem nextScale_lt {sf : ℚ} (hsf : 1 < sf) {s : ℕ} (hs : 1 ≤ s) : nextScale sf s < s := by
  unfold nextScale
  have hs0 : (0 : ℚ) < (s : ℚ) := by exact_mod_cast hs
  have hdiv : (s : ℚ) / sf < (s : ℚ) := div_lt_self hs0 hsf
  have hfl : ⌊(s : ℚ) / sf⌋ < (s : ℤ) := by
    rw [Int.floor_lt]
    exact_mod_cast hdiv
  omega

/-- Claim C8: with `scalefactor > 1` the multiscale loop
`while (s >= minsize) s = (s / scalefactor) | 0` terminates if and only if
`minsize >= 1`; with `minsize = 0` the iterate stays `>= 0 = minsize`
forever. -/
theorem c8_scan_termination (sf : ℚ) (s0 minsize : ℕ) (hsf : 1 < sf) :
    scanTerminates sf s0 minsize ↔ 1 ≤ minsize := by
  constructor
  · rintro ⟨k, hk⟩
    omega
  · intro hm
    induction s0 using Nat.strong_induction_on with
    | _ s ih =>
      by_cases hlt : s < minsize
      · exact ⟨0, by simpa using hlt⟩
      · have hs1 : 1 ≤ s := by omega
        obtain ⟨k, hk⟩ := ih (nextScale sf s) (nextScale_lt hsf hs1)
        exact ⟨k + 1, by rwa [Function.iterate_succ_apply]⟩

theorem c8_scan_termination_witness :
    (1 : ℚ) < 2 ∧ (scanTerminates 2 5 1 ↔ 1 ≤ 1) :=
  ⟨by norm_num, c8_scan_termination 2 5 1 (by norm_num)⟩

theorem getD_set_self {α : Type} (dflt : α) :
    ∀ (l : List α) (i : ℕ) (v : α), i < l.length → (l.set i v).getD i dflt = v := by
  intro l
  induction l with
  | nil => intro i v h; simp at h
  | cons a t ih =>
    intro i v h
    cases i with
    | zero => rfl
    | succ j =>
      simp only [List.set, List.getD_cons_succ]
      exact ih j v (by simpa using h)

theorem getD_set_ne {α : Type} (dflt : α) :
    ∀ (l : List α) (i j : ℕ) (v : α), j ≠ i → (l.set i v).getD j dflt = l.getD j dflt := by
  intro l
  induction l with
  | nil => intro i j v _; simp [List.set]
  | cons a t ih =>
    intro i j v h
    cases i with
    | zero =>
      cases j with
      | zero => exact absurd rfl h
      | succ jj => rfl
    | succ i' =>
      cases j with
      | zero => rfl
      | succ jj =>
        simp only [List.set, List.getD_cons_succ]
        exact ih i' jj v (by omega)

theorem map_getD_range {α : Type} (dflt : α) (l : List α) :
    (List.range l.length).map (fun i => l.getD i dflt) = l := by
  induction l with
  | nil => simp
  | cons a t ih =>
    rw [List.length_cons, List.range_succ_eq_map, List.map_cons, List.map_map]
    have hc : ((fun i => (a :: t).getD i dflt) ∘ Nat.succ) = fun i => t.getD i dflt := by
      funext i
      simp [List.getD_cons_succ]
    rw [hc, ih]
    rfl

/-- Claim C7: one memory update overwrites exactly the current write slot
with this frame's detections, advances the write index modulo the capacity,
and returns the concatenation of all slots in fixed slot-index order
`0..capacity-1`. -/
theorem c7_memory (st : MemState) (dets : List Det) (hn : st.n < st.slots.length) :
    (updateMemory st dets).1.slots.getD st.n [] = dets ∧
    (∀ i, i < st.slots.length → i ≠ st.n →
      (updateMemory st dets).1.slots.getD i [] = st.slots.getD i []) ∧
    (updateMemory st dets).1.n = (st.n + 1) % st.slots.length ∧
    (updateMemory st dets).1.slots.length = st.slots.length ∧
    (updateMemory st dets).2 =
      ((List.range st.slots.length).map
        fun i => (updateMemory st dets).1.slots.getD i []).flatten := by
  refine ⟨?_, ?_, ?_, ?_, ?_⟩
  · exact getD_set_self [] st.slots st.n dets hn
  · intro i _ hne
    exact getD_set_ne [] st.slots st.n i dets hne
  · simp [updateMemory]
  · simp [updateMemory]
  · show (st.slots.set st.n dets).flatten = _
    have h1 : (updateMemory st dets).1.slots = st.slots.set st.n dets := rfl
    have hlen : st.slots.length = (st.slots.set st.n dets).length := by simp
    rw [h1, hlen, map_getD_range]

theorem c7_memory_witness :
    (0 : ℕ) < (MemState.mk 0 [[], []]).slots.length ∧
    ((updateMemory ⟨0, [[], []]⟩ [⟨1, 2, 3, 4, 5⟩]).1.slots.getD 0 [] = [⟨1, 2, 3, 4, 5⟩] ∧
      (∀ i, i < (MemState.mk 0 [[], []]).slots.length → i ≠ 0 →
        (updateMemory ⟨0, [[], []]⟩ [⟨1, 2, 3, 4, 5⟩]).1.slots.getD i [] =
          (MemState.mk 0 [[], []]).slots.getD i []) ∧
      (updateMemory ⟨0, [[], []]⟩ [⟨1, 2, 3, 4, 5⟩]).1.n =
        (0 + 1) % (MemState.mk 0 [[], []]).slots.length ∧
      (updateMemory ⟨0, [[], []]⟩ [⟨1, 2, 3, 4, 5⟩]).1.slots.length =
        (MemState.mk 0 [[], []]).slots.length ∧
      (updateMemory ⟨0, [[], []]⟩ [⟨1, 2, 3, 4, 5⟩]).2 =
        ((List.range (MemState.mk 0 [[], []]).slots.length).map
          fun i => (updateMemory ⟨0, [[], []]⟩ [⟨1, 2, 3, 4, 5⟩]).1.slots.getD i []).flatten) :=
  ⟨by norm_num, c7_memory ⟨0, [[], []]⟩ [⟨1, 2, 3, 4, 5⟩] (by norm_num)⟩

/-- Claim C9: with capacity-1 memory, two consecutive detection calls on the
same frame produce identical final detection lists; the ring buffer holds
only the current frame. -/
theorem c9_memory_one (α : Type) (raw : α → List Det) (τ : ℚ) (st : MemState)
    (img : α) (hcap : st.slots.length = 1) (hn : st.n < st.slots.length) :
    (detectPipe raw τ (detectPipe raw τ st img).1 img).2 = (detectPipe raw τ st img).2 := by
  obtain ⟨x, hx⟩ := List.length_eq_one.mp hcap
  have hn0 : st.n = 0 := by omega
  obtain ⟨n, slots⟩ := st
  simp only at hx hn0
  subst hx hn0
  simp [detectPipe, updateMemory]

theorem c9_memory_one_witness :
    (MemState.mk 0 [[]]).slots.length = 1 ∧
    (MemState.mk 0 [[]]).n < (MemState.mk 0 [[]]).slots.length ∧
    (detectPipe (fun _ : ℕ => [⟨1, 1, 1, 1, 0⟩])
        0 (detectPipe (fun _ : ℕ => [⟨1, 1, 1, 1, 0⟩]) 0 ⟨0, [[]]⟩ 7).1 7).2 =
      (detectPipe (fun _ : ℕ => [⟨1, 1, 1, 1, 0⟩]) 0 ⟨0, [[]]⟩ 7).2 :=
  ⟨rfl, by norm_num,
    c9_memory_one ℕ (fun _ => [⟨1, 1, 1, 1, 0⟩]) 0 ⟨0, [[]]⟩ 7 rfl (by norm_num)⟩

theorem rowOverlap_comm (det1 det2 : Det) : rowOverlap det1 det2 = rowOverlap det2 det1 := by
  unfold rowOverlap
  rw [min_comm ((det1.r : ℚ) + (det1.s : ℚ) / 2) ((det2.r : ℚ) + (det2.s : ℚ) / 2),
    max_comm ((det1.r : ℚ) - (det1.s : ℚ) / 2) ((det2.r : ℚ) - (det2.s : ℚ) / 2)]

theorem colOverlap_comm (det1 det2 : Det) : colOverlap det1 det2 = colOverlap det2 det1 := by
  unfold colOverlap
  rw [min_comm ((det1.c : ℚ) + (det1.s : ℚ) / 2) ((det2.c : ℚ) + (det2.s : ℚ) / 2),
    max_comm ((det1.c : ℚ) - (det1.s : ℚ) / 2) ((det2.c : ℚ) - (det2.s : ℚ) / 2)]

/-- Claim C10 counterexample: for the size-0 detection the source computes
`0/0` (NaN in JavaScript, 0 in this rational model); in neither semantics
does the self-overlap equal 1, so reflexivity fails at size 0. -/
theorem c10_counterexample :
    calcOverlap ⟨0, 0, 0, 0, 0⟩ ⟨0, 0, 0, 0, 0⟩ ≠ 1 := by
  norm_num [calcOverlap, rowOverlap, colOverlap]

/-- Claim C10 amended: self-overlap equals 1 for every detection of positive
size, and overlap is symmetric for all detections. -/
theorem c10_overlap_amended :
    (∀ d : Det, 1 ≤ d.s → calcOverlap d d = 1) ∧
    (∀ det1 det2 : Det, calcOverlap det1 det2 = calcOverlap det2 det1) := by
  constructor
  · intro d hs
    have hs' : (0 : ℚ) < (d.s : ℚ) := by exact_mod_cast hs
    unfold calcOverlap rowOverlap colOverlap
    rw [min_self, min_self, min_self, max_self, max_self]
    rw [show ((d.r : ℚ) + (d.s : ℚ) / 2) - ((d.r : ℚ) - (d.s : ℚ) / 2) = (d.s : ℚ) by ring]
    rw [show ((d.c : ℚ) + (d.s : ℚ) / 2) - ((d.c : ℚ) - (d.s : ℚ) / 2) = (d.s : ℚ) by ring]
    rw [max_eq_right hs'.le]
    exact div_self (by positivity)
  · intro det1 det2
    unfold calcOverlap
    rw [rowOverlap_comm, colOverlap_comm, min_comm ((det1.s : ℚ)) ((det2.s : ℚ))]

theorem c10_overlap_amended_witness :
    1 ≤ (Det.mk 1 1 3 0 0).s ∧
    calcOverlap ⟨1, 1, 3, 0, 0⟩ ⟨1, 1, 3, 0, 0⟩ = 1 ∧
    calcOverlap ⟨1, 1, 3, 0, 0⟩ ⟨4, 5, 6, 7, 8⟩ = calcOverlap ⟨4, 5, 6, 7, 8⟩ ⟨1, 1, 3, 0, 0⟩ :=
  ⟨by norm_num, c10_overlap_amended.1 ⟨1, 1, 3, 0, 0⟩ (by norm_num),
    c10_overlap_amended.2 ⟨1, 1, 3, 0, 0⟩ ⟨4, 5, 6, 7, 8⟩⟩

theorem jsTrunc_of_nonneg {x : ℝ} (h : 0 ≤ x) : jsTrunc x = ⌊x⌋ := by
  unfold jsTrunc
  rw [if_pos h]

theorem jsTrunc_bounds {x : ℝ} (h1 : -(256 : ℝ) ≤ x) (h2 : x ≤ 256) :
    -256 ≤ jsTrunc x ∧ jsTrunc x ≤ 256 := by
  unfold jsTrunc
  split
  · next h =>
    constructor
    · have := Int.floor_nonneg.mpr h
      omega
    · have hle : ⌊x⌋ ≤ ⌊((256 : ℤ) : ℝ)⌋ := Int.floor_le_floor (by exact_mod_cast h2)
      rwa [Int.floor_intCast] at hle
  · next h =>
    push_neg at h
    constructor
    · have hle : ⌊-x⌋ ≤ ⌊((256 : ℤ) : ℝ)⌋ := Int.floor_le_floor (by push_cast; linarith)
      rw [Int.floor_intCast] at hle
      omega
    · have := Int.floor_nonneg.mpr (show (0 : ℝ) ≤ -x by linarith)
      omega

theorem qcostable_bounds (a : ℕ) : -256 ≤ qcostable a ∧ qcostable a ≤ 256 := by
  unfold qcostable
  have hc1 : -(256 : ℝ) ≤ Real.cos ((a : ℝ) * Real.pi / 180) * 256 := by
    nlinarith [Real.neg_one_le_cos ((a : ℝ) * Real.pi / 180)]
  have hc2 : Real.cos ((a : ℝ) * Real.pi / 180) * 256 ≤ 256 := by
    nlinarith [Real.cos_le_one ((a : ℝ) * Real.pi / 180)]
  have hb := jsTrunc_bounds hc1 hc2
  rw [toInt32_eq_self (by omega) (by omega)]
  exact hb

theorem qsintable_bounds (a : ℕ) : -256 ≤ qsintable a ∧ qsintable a ≤ 256 := by
  unfold qsintable
  have hc1 : -(256 : ℝ) ≤ Real.sin ((a : ℝ) * Real.pi / 180) * 256 := by
    nlinarith [Real.neg_one_le_sin ((a : ℝ) * Real.pi / 180)]
  have hc2 : Real.sin ((a : ℝ) * Real.pi / 180) * 256 ≤ 256 := by
    nlinarith [Real.sin_le_one ((a : ℝ) * Real.pi / 180)]
  have hb := jsTrunc_bounds hc1 hc2
  rw [toInt32_eq_self (by omega) (by omega)]
  exact hb

theorem qcostable_eq_trunc (a : ℕ) :
    qcostable a = jsTrunc (Real.cos ((a : ℝ) * Real.pi / 180) * 256) := by
  unfold qcostable
  have hc1 : -(256 : ℝ) ≤ Real.cos ((a : ℝ) * Real.pi / 180) * 256 := by
    nlinarith [Real.neg_one_le_cos ((a : ℝ) * Real.pi / 180)]
  have hc2 : Real.cos ((a : ℝ) * Real.pi / 180) * 256 ≤ 256 := by
    nlinarith [Real.cos_le_one ((a : ℝ) * Real.pi / 180)]
  have hb := jsTrunc_bounds hc1 hc2
  exact toInt32_eq_self (by omega) (by omega)

theorem qsintable_eq_trunc (a : ℕ) :
    qsintable a = jsTrunc (Real.sin ((a : ℝ) * Real.pi / 180) * 256) := by
  unfold qsintable
  have hc1 : -(256 : ℝ) ≤ Real.sin ((a : ℝ) * Real.pi / 180) * 256 := by
    nlinarith [Real.neg_one_le_sin ((a : ℝ) * Real.pi / 180)]
  have hc2 : Real.sin ((a : ℝ) * Real.pi / 180) * 256 ≤ 256 := by
    nlinarith [Real.sin_le_one ((a : ℝ) * Real.pi / 180)]
  have hb := jsTrunc_bounds hc1 hc2
  exact toInt32_eq_self (by omega) (by omega)

theorem qcostable_zero : qcostable 0 = 256 := by
  unfold qcostable
  rw [show ((0 : ℕ) : ℝ) * Real.pi / 180 = 0 by norm_num, Real.cos_zero]
  rw [show (1 : ℝ) * 256 = ((256 : ℤ) : ℝ) by norm_num]
  rw [jsTrunc_of_nonneg (by norm_num), Int.floor_intCast]
  exact toInt32_eq_self (by norm_num) (by norm_num)

theorem qsintable_zero : qsintable 0 = 0 := by
  unfold qsintable
  rw [show ((0 : ℕ) : ℝ) * Real.pi / 180 = 0 by norm_num, Real.sin_zero]
  rw [show (0 : ℝ) * 256 = ((0 : ℤ) : ℝ) by norm_num]
  rw [jsTrunc_of_nonneg (by norm_num), Int.floor_intCast]
  exact toInt32_eq_self (by norm_num) (by norm_num)

theorem sqrt_two_scaled_bounds : (181 : ℝ) ≤ 128 * Real.sqrt 2 ∧ 128 * Real.sqrt 2 < 182 := by
  have h2 : Real.sqrt 2 ^ 2 = 2 := Real.sq_sqrt (by norm_num)
  have h0 : (0 : ℝ) ≤ Real.sqrt 2 := Real.sqrt_nonneg 2
  constructor <;> nlinarith

theorem qcostable_45 : qcostable 45 = 181 := by
  unfold qcostable
  rw [show ((45 : ℕ) : ℝ) * Real.pi / 180 = Real.pi / 4 by push_cast; ring]
  rw [Real.cos_pi_div_four]
  rw [show Real.sqrt 2 / 2 * 256 = 128 * Real.sqrt 2 by ring]
  have hb := sqrt_two_scaled_bounds
  rw [jsTrunc_of_nonneg (by positivity)]
  have hf : ⌊(128 : ℝ) * Real.sqrt 2⌋ = 181 :=
    Int.floor_eq_iff.mpr ⟨by push_cast; linarith [hb.1], by push_cast; linarith [hb.2]⟩
  rw [hf]
  exact toInt32_eq_self (by norm_num) (by norm_num)

theorem qsintable_45 : qsintable 45 = 181 := by
  unfold qsintable
  rw [show ((45 : ℕ) : ℝ) * Real.pi / 180 = Real.pi / 4 by push_cast; ring]
  rw [Real.sin_pi_div_four]
  rw [show Real.sqrt 2 / 2 * 256 = 128 * Real.sqrt 2 by ring]
  have hb := sqrt_two_scaled_bounds
  rw [jsTrunc_of_nonneg (by positivity)]
  have hf : ⌊(128 : ℝ) * Real.sqrt 2⌋ = 181 :=
    Int.floor_eq_iff.mpr ⟨by push_cast; linarith [hb.1], by push_cast; linarith [hb.2]⟩
  rw [hf]
  exact toInt32_eq_self (by norm_num) (by norm_num)

/-- Claim C4 counterexample: at 1 degree the source stores
`(cos(pi/180)*256) | 0 = 255` (truncation toward zero), while the claimed
`round(cos(pi/180)*256)` is 256, since `cos(pi/180)*256` lies in
`[255.5, 256)`. -/
theorem c4_counterexample :
    qcostable 1 ≠ round (Real.cos (((1 : ℕ) : ℝ) * Real.pi / 180) * 256) := by
  have hA : ((1 : ℕ) : ℝ) * Real.pi / 180 = Real.pi / 180 := by push_cast; ring
  have hx1 : (0 : ℝ) < Real.pi / 180 := by positivity
  have hx2 : Real.pi / 180 ≤ 0.0175 := by linarith [Real.pi_lt_315]
  have hlb : (1 : ℝ) - (Real.pi / 180) ^ 2 / 2 ≤ Real.cos (Real.pi / 180) :=
    Real.one_sub_sq_div_two_le_cos
  have hub : Real.cos (Real.pi / 180) < 1 := by
    have hmono := Real.cos_lt_cos_of_nonneg_of_le_pi (le_refl (0 : ℝ))
      (show Real.pi / 180 ≤ Real.pi by linarith [Real.pi_pos]) hx1
    rwa [Real.cos_zero] at hmono
  have hvlb : (255.5 : ℝ) ≤ Real.cos (Real.pi / 180) * 256 := by
    nlinarith [sq_nonneg (Real.pi / 180)]
  have hvub : Real.cos (Real.pi / 180) * 256 < 256 := by nlinarith
  have hq : qcostable 1 = 255 := by
    unfold qcostable
    rw [hA, jsTrunc_of_nonneg (by nlinarith)]
    have hf : ⌊Real.cos (Real.pi / 180) * 256⌋ = 255 :=
      Int.floor_eq_iff.mpr ⟨by push_cast; nlinarith, by push_cast; nlinarith⟩
    rw [hf]
    exact toInt32_eq_self (by norm_num) (by norm_num)
  have hr : round (Real.cos (((1 : ℕ) : ℝ) * Real.pi / 180) * 256) = 256 := by
    rw [hA, round_eq]
    exact Int.floor_eq_iff.mpr ⟨by push_cast; nlinarith, by push_cast; nlinarith⟩
  rw [hq, hr]
  norm_num

/-- Claim C4 amended: the decode-time tables hold the truncation toward zero
of `cos/sin(i*pi/180)*256` (JavaScript `|0`), not the rounding; no 32-bit
wrap occurs since the magnitudes are at most 256. -/
theorem c4_tables_amended (i : ℕ) (hi : i < 360) :
    qcostable i = jsTrunc (Real.cos ((i : ℝ) * Real.pi / 180) * 256) ∧
    qsintable i = jsTrunc (Real.sin ((i : ℝ) * Real.pi / 180) * 256) :=
  ⟨qcostable_eq_trunc i, qsintable_eq_trunc i⟩

theorem c4_tables_amended_witness :
    (0 : ℕ) < 360 ∧
    (qcostable 0 = jsTrunc (Real.cos (((0 : ℕ) : ℝ) * Real.pi / 180) * 256) ∧
      qsintable 0 = jsTrunc (Real.sin (((0 : ℕ) : ℝ) * Real.pi / 180) * 256)) :=
  ⟨by norm_num, c4_tables_amended 0 (by norm_num)⟩

theorem mul3_bound {s x t : ℤ} (hs : 0 ≤ s) (hx : -256 ≤ x) (hx' : x ≤ 256)
    (ht : -128 ≤ t) (ht' : t ≤ 127) :
    -(s * 32768) ≤ s * x * t ∧ s * x * t ≤ s * 32768 := by
  have h1 : -(32768 : ℤ) ≤ x * t := by nlinarith
  have h2 : x * t ≤ 32768 := by nlinarith
  have h3 := mul_le_mul_of_nonneg_left h1 hs
  have h4 := mul_le_mul_of_nonneg_left h2 hs
  constructor <;> nlinarith

theorem rotOffsetR_no_wrap (s a : ℕ) (t0 t1 : ℤ) (hs : s ≤ 32767)
    (h0 : -128 ≤ t0) (h0' : t0 ≤ 127) (h1 : -128 ≤ t1) (h1' : t1 ≤ 127) :
    rotOffsetR s a t0 t1 =
      ((s : ℤ) * qcostable a * t0 - (s : ℤ) * qsintable a * t1) / 65536 := by
  unfold rotOffsetR
  have hqc := qcostable_bounds a
  have hqs := qsintable_bounds a
  have hsn : (0 : ℤ) ≤ (s : ℤ) := Int.ofNat_nonneg s
  have hsb : (s : ℤ) ≤ 32767 := by exact_mod_cast hs
  have b1 := mul3_bound hsn hqc.1 hqc.2 h0 h0'
  have b2 := mul3_bound hsn hqs.1 hqs.2 h1 h1'
  exact asr16_no_wrap (by nlinarith [b1.1, b2.2]) (by nlinarith [b1.2, b2.1])

theorem rotOffsetC_no_wrap (s a : ℕ) (t0 t1 : ℤ) (hs : s ≤ 32767)
    (h0 : -128 ≤ t0) (h0' : t0 ≤ 127) (h1 : -128 ≤ t1) (h1' : t1 ≤ 127) :
    rotOffsetC s a t0 t1 =
      ((s : ℤ) * qsintable a * t0 + (s : ℤ) * qcostable a * t1) / 65536 := by
  unfold rotOffsetC
  have hqc := qcostable_bounds a
  have hqs := qsintable_bounds a
  have hsn : (0 : ℤ) ≤ (s : ℤ) := Int.ofNat_nonneg s
  have hsb : (s : ℤ) ≤ 32767 := by exact_mod_cast hs
  have b1 := mul3_bound hsn hqs.1 hqs.2 h0 h0'
  have b2 := mul3_bound hsn hqc.1 hqc.2 h1 h1'
  exact asr16_no_wrap (by nlinarith [b1.1, b2.1]) (by nlinarith [b1.2, b2.2])

/-- Claim C2 counterexample: at window size 65538 (angle 0, code bytes
(-128, 0, 0, 0)) the product `qcos*t0 = -2^31 - 2^16` wraps under ToInt32
before the shift, so the stored offset is 32767 while the claimed exact
arithmetic-shift value is -32769. -/
theorem c2_counterexample :
    rotOffsetR 65538 0 (-128) 0 ≠
      ((65538 : ℤ) * qcostable 0 * (-128) - (65538 : ℤ) * qsintable 0 * 0) / 65536 := by
  unfold rotOffsetR
  rw [qcostable_zero, qsintable_zero]
  unfold asr16 toInt32
  norm_num

/-- Claim C2 amended: for window sizes up to 32767 the precomputed offsets
equal the claimed exact fixed-point rotation formulas with arithmetic right
shift; no 32-bit wrap occurs. -/
theorem c2_offsets_amended (s a : ℕ) (t0 t1 t2 t3 : ℤ)
    (ha : a < 360) (hs : s ≤ 32767)
    (h0 : -128 ≤ t0) (h0' : t0 ≤ 127) (h1 : -128 ≤ t1) (h1' : t1 ≤ 127)
    (h2 : -128 ≤ t2) (h2' : t2 ≤ 127) (h3 : -128 ≤ t3) (h3' : t3 ≤ 127) :
    rotOffsetR s a t0 t1 =
      ((s : ℤ) * qcostable a * t0 - (s : ℤ) * qsintable a * t1) / 65536 ∧
    rotOffsetC s a t0 t1 =
      ((s : ℤ) * qsintable a * t0 + (s : ℤ) * qcostable a * t1) / 65536 ∧
    rotOffsetR s a t2 t3 =
      ((s : ℤ) * qcostable a * t2 - (s : ℤ) * qsintable a * t3) / 65536 ∧
    rotOffsetC s a t2 t3 =
      ((s : ℤ) * qsintable a * t2 + (s : ℤ) * qcostable a * t3) / 65536 :=
  ⟨rotOffsetR_no_wrap s a t0 t1 hs h0 h0' h1 h1',
    rotOffsetC_no_wrap s a t0 t1 hs h0 h0' h1 h1',
    rotOffsetR_no_wrap s a t2 t3 hs h2 h2' h3 h3',
    rotOffsetC_no_wrap s a t2 t3 hs h2 h2' h3 h3'⟩

theorem c2_offsets_amended_witness :
    (0 : ℕ) < 360 ∧ (100 : ℕ) ≤ 32767 ∧
    (-128 ≤ (1 : ℤ) ∧ (1 : ℤ) ≤ 127 ∧ -128 ≤ (-2 : ℤ) ∧ (-2 : ℤ) ≤ 127 ∧
      -128 ≤ (3 : ℤ) ∧ (3 : ℤ) ≤ 127 ∧ -128 ≤ (0 : ℤ) ∧ (0 : ℤ) ≤ 127) ∧
    (rotOffsetR 100 0 1 (-2) =
        ((100 : ℤ) * qcostable 0 * 1 - (100 : ℤ) * qsintable 0 * (-2)) / 65536 ∧
      rotOffsetC 100 0 1 (-2) =
        ((100 : ℤ) * qsintable 0 * 1 + (100 : ℤ) * qcostable 0 * (-2)) / 65536 ∧
      rotOffsetR 100 0 3 0 =
        ((100 : ℤ) * qcostable 0 * 3 - (100 : ℤ) * qsintable 0 * 0) / 65536 ∧
      rotOffsetC 100 0 3 0 =
        ((100 : ℤ) * qsintable 0 * 3 + (100 : ℤ) * qcostable 0 * 0) / 65536) :=
  ⟨by norm_num, by norm_num, by norm_num,
    c2_offsets_amended 100 0 1 (-2) 3 0 (by norm_num) (by norm_num)
      (by norm_num) (by norm_num) (by norm_num) (by norm_num)
      (by norm_num) (by norm_num) (by norm_num) (by norm_num)⟩

theorem centerCoord_eq (r : ℕ) (hr : r ≤ 32767) : centerCoord r = (r : ℤ) := by
  unfold centerCoord jsShl16 asr16
  have hrn : (0 : ℤ) ≤ (r : ℤ) := Int.ofNat_nonneg r
  have hrb : (r : ℤ) ≤ 32767 := by exact_mod_cast hr
  have h1 : toInt32 ((r : ℤ) * 65536) = (r : ℤ) * 65536 :=
    toInt32_eq_self (by nlinarith) (by nlinarith)
  rw [h1, h1, Int.mul_ediv_cancel _ (by norm_num)]

theorem rotOffsetR_zero_angle (s : ℕ) (t0 t1 : ℤ) :
    rotOffsetR s 0 t0 t1 = asr16 ((s : ℤ) * t0 * 256) := by
  unfold rotOffsetR
  rw [qcostable_zero, qsintable_zero]
  congr 1
  ring

theorem rotOffsetC_zero_angle (s : ℕ) (t0 t1 : ℤ) :
    rotOffsetC s 0 t0 t1 = asr16 ((s : ℤ) * t1 * 256) := by
  unfold rotOffsetC
  rw [qcostable_zero, qsintable_zero]
  congr 1
  ring

theorem offset_zero_bounds (s : ℕ) (t : ℤ) (hs : s ≤ 65533) (ht : -128 ≤ t) (ht' : t ≤ 127) :
    -(((s / 2 : ℕ) : ℤ) + 1) ≤ asr16 ((s : ℤ) * t * 256) ∧
      asr16 ((s : ℤ) * t * 256) ≤ ((s / 2 : ℕ) : ℤ) := by
  have hsn : (0 : ℤ) ≤ (s : ℤ) := Int.ofNat_nonneg s
  have hsb : (s : ℤ) ≤ 65533 := by exact_mod_cast hs
  have hl : -(128 * (s : ℤ)) ≤ (s : ℤ) * t := by nlinarith
  have hu : (s : ℤ) * t ≤ 128 * (s : ℤ) := by nlinarith
  have hnw : asr16 ((s : ℤ) * t * 256) = ((s : ℤ) * t * 256) / 65536 :=
    asr16_no_wrap (by nlinarith) (by nlinarith)
  have hdiv : ((s : ℤ) * t * 256) / 65536 = ((s : ℤ) * t) / 256 := by
    rw [show (s : ℤ) * t * 256 = 256 * ((s : ℤ) * t) by ring,
      show (65536 : ℤ) = 256 * 256 by norm_num,
      Int.mul_ediv_mul_of_pos _ _ (show (0 : ℤ) < 256 by norm_num)]
  rw [hnw, hdiv]
  constructor <;> omega

/-- Claim C6 counterexample: at rotation angle 45, window size 100, code
bytes `t0 = t1 = -128`, the column offset is `(18100*(-128) + 18100*(-128)) >> 16 = -71`,
so the window centered at `(51, 51)` inside the claimed scan range of a
103x103 image samples column `51 - 71 = -20`, outside the image. -/
theorem c6_counterexample :
    (100 / 2 + 1 ≤ 51 ∧ 51 + 100 / 2 + 1 ≤ 103) ∧
    centerCoord 51 + rotOffsetC 100 45 (-128) (-128) < 0 := by
  refine ⟨by norm_num, ?_⟩
  have h1 : rotOffsetC 100 45 (-128) (-128) = asr16 (-4633600) := by
    unfold rotOffsetC
    rw [qcostable_45, qsintable_45]
    norm_num
  rw [h1, centerCoord_eq 51 (by norm_num)]
  unfold asr16 toInt32
  norm_num

/-- Claim C6 amended: at rotation angle 0 (the default configuration) and
window centers with row and col at most 32767 inside the claimed scan range,
all four sampled coordinates of every node are within the image bounds. -/
theorem c6_inbounds_amended (height width r c s : ℕ) (t0 t1 t2 t3 : ℤ)
    (hr32 : r ≤ 32767) (hc32 : c ≤ 32767)
    (hrlo : s / 2 + 1 ≤ r) (hrhi : r + s / 2 + 1 ≤ height)
    (hclo : s / 2 + 1 ≤ c) (hchi : c + s / 2 + 1 ≤ width)
    (h0 : -128 ≤ t0) (h0' : t0 ≤ 127) (h1 : -128 ≤ t1) (h1' : t1 ≤ 127)
    (h2 : -128 ≤ t2) (h2' : t2 ≤ 127) (h3 : -128 ≤ t3) (h3' : t3 ≤ 127) :
    (0 ≤ centerCoord r + rotOffsetR s 0 t0 t1 ∧
      centerCoord r + rotOffsetR s 0 t0 t1 < (height : ℤ)) ∧
    (0 ≤ centerCoord c + rotOffsetC s 0 t0 t1 ∧
      centerCoord c + rotOffsetC s 0 t0 t1 < (width : ℤ)) ∧
    (0 ≤ centerCoord r + rotOffsetR s 0 t2 t3 ∧
      centerCoord r + rotOffsetR s 0 t2 t3 < (height : ℤ)) ∧
    (0 ≤ centerCoord c + rotOffsetC s 0 t2 t3 ∧
      centerCoord c + rotOffsetC s 0 t2 t3 < (width : ℤ)) := by
  have hs : s ≤ 65533 := by omega
  rw [centerCoord_eq r hr32, centerCoord_eq c hc32]
  simp only [rotOffsetR_zero_angle, rotOffsetC_zero_angle]
  have b0 := offset_zero_bounds s t0 hs h0 h0'
  have b1 := offset_zero_bounds s t1 hs h1 h1'
  have b2 := offset_zero_bounds s t2 hs h2 h2'
  have b3 := offset_zero_bounds s t3 hs h3 h3'
  refine ⟨⟨?_, ?_⟩, ⟨?_, ?_⟩, ⟨?_, ?_⟩, ⟨?_, ?_⟩⟩ <;> omega

theorem c6_inbounds_amended_witness :
    ((51 : ℕ) ≤ 32767 ∧ 100 / 2 + 1 ≤ 51 ∧ 51 + 100 / 2 + 1 ≤ 104 ∧
      -128 ≤ (1 : ℤ) ∧ (1 : ℤ) ≤ 127 ∧ -128 ≤ (-2 : ℤ) ∧ (-2 : ℤ) ≤ 127 ∧
      -128 ≤ (3 : ℤ) ∧ (3 : ℤ) ≤ 127 ∧ -128 ≤ (0 : ℤ) ∧ (0 : ℤ) ≤ 127) ∧
    ((0 ≤ centerCoord 51 + rotOffsetR 100 0 1 (-2) ∧
        centerCoord 51 + rotOffsetR 100 0 1 (-2) < ((104 : ℕ) : ℤ)) ∧
      (0 ≤ centerCoord 51 + rotOffsetC 100 0 1 (-2) ∧
        centerCoord 51 + rotOffsetC 100 0 1 (-2) < ((104 : ℕ) : ℤ)) ∧
      (0 ≤ centerCoord 51 + rotOffsetR 100 0 3 0 ∧
        centerCoord 51 + rotOffsetR 100 0 3 0 < ((104 : ℕ) : ℤ)) ∧
      (0 ≤ centerCoord 51 + rotOffsetC 100 0 3 0 ∧
        centerCoord 51 + rotOffsetC 100 0 3 0 < ((104 : ℕ) : ℤ))) :=
  ⟨by norm_num,
    c6_inbounds_amended 104 104 51 51 100 1 (-2) 3 0 (by norm_num) (by norm_num)
      (by norm_num) (by norm_num) (by norm_num) (by norm_num) (by norm_num)
      (by norm_num) (by norm_num) (by norm_num) (by norm_num) (by norm_num)
      (by norm_num) (by norm_num)⟩

theorem walk_step_bounds {m idx b : ℕ} (hb : b ≤ 1) (hl : 2 ^ m ≤ idx)
    (hu : idx < 2 ^ (m + 1)) :
    2 ^ (m + 1) ≤ 2 * idx + b ∧ 2 * idx + b < 2 ^ (m + 2) := by
  have h1 : (2 : ℕ) ^ (m + 1) = 2 * 2 ^ m := by ring
  have h2 : (2 : ℕ) ^ (m + 2) = 2 * 2 ^ (m + 1) := by ring
  omega

theorem walkTree_bounds (pix : List ℕ) (width : ℤ) (off : ℕ → ℤ) (baseNode : ℕ)
    (rb cb : ℤ) :
    ∀ j m idx, 2 ^ m ≤ idx → idx < 2 ^ (m + 1) →
      2 ^ (m + j) ≤ walkTree pix width off baseNode rb cb j idx ∧
        walkTree pix width off baseNode rb cb j idx < 2 ^ (m + j + 1) := by
  intro j
  induction j with
  | zero =>
    intro m idx hl hu
    constructor
    · simpa using hl
    · simpa using hu
  | succ k ih =>
    intro m idx hl hu
    have hble : (if samplePix pix ((rb + off (baseNode + idx * 4)) * width +
        (cb + off (baseNode + idx * 4 + 1))) ≤
        samplePix pix ((rb + off (baseNode + idx * 4 + 2)) * width +
        (cb + off (baseNode + idx * 4 + 3))) then 1 else 0) ≤ 1 := by
      split <;> omega
    have hstep := walk_step_bounds hble hl hu
    have hrec := ih (m + 1) _ hstep.1 hstep.2
    rw [show m + (k + 1) = m + 1 + k from by omega]
    exact hrec

theorem treeLoop_eq (pow2 : ℕ) (tpreds thresh : ℕ → ℚ) (leafIdx : ℕ → ℕ)
    (hleaf : ∀ i, pow2 ≤ leafIdx i) :
    ∀ k i o, runTreeLoop pow2 tpreds thresh leafIdx i k o =
      specTreeLoop pow2 tpreds thresh leafIdx i k o := by
  intro k
  induction k with
  | zero => intro i o; rfl
  | succ n ih =>
    intro i o
    have hge := hleaf i
    have hpred : predAtZ tpreds ((pow2 : ℤ) * ((i : ℤ) - 1) + (leafIdx i : ℤ)) =
        tpreds (pow2 * i + (leafIdx i - pow2)) := by
      have hz : (pow2 : ℤ) * ((i : ℤ) - 1) + (leafIdx i : ℤ) =
          ((pow2 * i + (leafIdx i - pow2) : ℕ) : ℤ) := by
        rw [Nat.cast_add, Nat.cast_mul, Nat.cast_sub hge]
        ring
      unfold predAtZ
      rw [hz, if_pos (Int.ofNat_nonneg _)]
      congr 1
    simp only [runTreeLoop, specTreeLoop]
    rw [hpred]
    split
    · rfl
    · exact ih (i + 1) _

/-- Claim C1 counterexample: one tree of depth 1 with threshold -5 and both
leaf predictions -1 on a uniform 3x3 image.  The tree passes
(`-1 > -5`) and the claimed margin `q = -1 - (-5) = 4` is positive, so claim
C1 emits a detection, but the source emits nothing because of the extra
`o > 0` guard (the final score -1 is not positive). -/
theorem c1_counterexample :
    runWindow [] 3 (fun _ => 0) (fun _ => -1) (fun _ => -5) 1 1 1 1 1 0 = [] ∧
    claimWindow [] 3 (fun _ => 0) (fun _ => -1) (fun _ => -5) 1 1 1 1 1 0 =
      [⟨1, 1, 1, 4, 0⟩] := by
  have hleaf : ∀ i : ℕ, leafIndex [] 3 (fun _ => 0) 1 i 1 1 = 3 := by
    intro i
    unfold leafIndex
    rw [centerCoord_eq 1 (by norm_num)]
    norm_num [walkTree, samplePix]
  constructor
  · norm_num [runWindow, runTreeLoop, predAtZ, hleaf]
  · norm_num [claimWindow, specTreeLoop, hleaf]

/-- Claim C1 amended: every tree walk lands on a path index in
`[2^D, 2^(D+1))`, the flat access `tpreds[2^D*(i-1) + idx]` is the leaf
prediction of tree `i` at leaf `idx - 2^D`, the cascade rejects immediately
when the accumulated score is `<=` the tree threshold, and one raw detection
with quality `q = score - thresh[ntrees-1]` is emitted exactly when all trees
pass and additionally the final score is positive (the margin `q` is then
automatically positive). -/
theorem c1_evaluator_amended (pix : List ℕ) (width : ℤ) (off : ℕ → ℤ)
    (tpreds thresh : ℕ → ℚ) (tdepth ntrees r c s : ℕ) (a : ℤ) :
    (∀ i : ℕ, 2 ^ tdepth ≤ leafIndex pix width off tdepth i r c ∧
        leafIndex pix width off tdepth i r c < 2 ^ (tdepth + 1)) ∧
    runWindow pix width off tpreds thresh tdepth ntrees r c s a =
      amendedWindow pix width off tpreds thresh tdepth ntrees r c s a := by
  have hb : ∀ i : ℕ, 2 ^ tdepth ≤ leafIndex pix width off tdepth i r c ∧
      leafIndex pix width off tdepth i r c < 2 ^ (tdepth + 1) := by
    intro i
    have hw := walkTree_bounds pix width off (i * 2 ^ tdepth * 4) (centerCoord r)
      (centerCoord c) tdepth 0 1 (by norm_num) (by norm_num)
    unfold leafIndex
    constructor
    · have h1 := hw.1
      rwa [Nat.zero_add] at h1
    · have h2 := hw.2
      rwa [Nat.zero_add] at h2
  refine ⟨hb, ?_⟩
  unfold runWindow amendedWindow
  rw [treeLoop_eq (2 ^ tdepth) tpreds thresh _ (fun i => (hb i).1)]

theorem live_cons_true (d : Det) (l : List (Det × Bool)) :
    live ((d, true) :: l) = live l := by
  simp [live]

theorem live_cons_false (d : Det) (l : List (Det × Bool)) :
    live ((d, false) :: l) = d :: live l := by
  simp [live]

theorem sumR_cons (d : Det) (l : List Det) : sumR (d :: l) = d.r + sumR l := by
  simp [sumR]

theorem sumC_cons (d : Det) (l : List Det) : sumC (d :: l) = d.c + sumC l := by
  simp [sumC]

theorem sumS_cons (d : Det) (l : List Det) : sumS (d :: l) = d.s + sumS l := by
  simp [sumS]

theorem sumQ_cons (d : Det) (l : List Det) : sumQ (d :: l) = d.q + sumQ l := by
  simp [sumQ]

theorem scanMembers_spec (seed : Det) (τ : ℚ) :
    ∀ lst : List (Det × Bool),
      (scanMembers seed τ lst).rest.length = lst.length ∧
      live (scanMembers seed τ lst).rest =
        (live lst).filter (fun e => !decide (τ < calcOverlap seed e)) ∧
      (scanMembers seed τ lst).sr =
        sumR ((live lst).filter fun e => decide (τ < calcOverlap seed e)) ∧
      (scanMembers seed τ lst).sc =
        sumC ((live lst).filter fun e => decide (τ < calcOverlap seed e)) ∧
      (scanMembers seed τ lst).ss =
        sumS ((live lst).filter fun e => decide (τ < calcOverlap seed e)) ∧
      (scanMembers seed τ lst).sq =
        sumQ ((live lst).filter fun e => decide (τ < calcOverlap seed e)) ∧
      (scanMembers seed τ lst).n =
        ((live lst).filter fun e => decide (τ < calcOverlap seed e)).length := by
  intro lst
  induction lst with
  | nil => simp [scanMembers, live, sumR, sumC, sumS, sumQ]
  | cons p rest ih =>
    obtain ⟨d, b⟩ := p
    obtain ⟨ih1, ih2, ih3, ih4, ih5, ih6, ih7⟩ := ih
    cases b
    · by_cases hov : τ < calcOverlap seed d
      · simp [scanMembers, hov, live_cons_true, live_cons_false, List.filter_cons,
          sumR_cons, sumC_cons, sumS_cons, sumQ_cons, ih1, ih2, ih3, ih4, ih5, ih6, ih7]
      · simp [scanMembers, hov, live_cons_true, live_cons_false, List.filter_cons,
          sumR_cons, sumC_cons, sumS_cons, sumQ_cons, ih1, ih2, ih3, ih4, ih5, ih6, ih7]
    · simp [scanMembers, live_cons_true, ih1, ih2, ih3, ih4, ih5, ih6, ih7]

theorem clusterLoop_eq_specNMS (τ : ℚ) :
    ∀ fuel lst, lst.length ≤ fuel →
      clusterLoop τ fuel lst = (specNMS τ (live lst)).map Prod.snd := by
  intro fuel
  induction fuel with
  | zero =>
    intro lst h
    have hnil : lst = [] := List.eq_nil_of_length_eq_zero (by omega)
    subst hnil
    simp [clusterLoop, live, specNMS]
  | succ f ih =>
    intro lst h
    rcases lst with _ | ⟨⟨d, b⟩, rest⟩
    · simp [clusterLoop, live, specNMS]
    · cases b
      · obtain ⟨hs1, hs2, hs3, hs4, hs5, hs6, hs7⟩ := scanMembers_spec d τ rest
        simp only [clusterLoop, Bool.false_eq_true, if_false]
        rw [live_cons_false]
        simp only [specNMS, List.map_cons]
        congr 1
        · unfold emitCluster
          rw [hs3, hs4, hs5, hs6, hs7]
        · rw [ih (scanMembers d τ rest).rest (by rw [hs1]; simpa using Nat.le_of_succ_le_succ h),
            hs2]
      · simp only [clusterLoop, if_true, live_cons_true]
        exact ih rest (by simpa using Nat.le_of_succ_le_succ h)

theorem live_map_false (L : List Det) : live (L.map fun d => (d, false)) = L := by
  induction L with
  | nil => rfl
  | cons d t ih => rw [List.map_cons, live_cons_false, ih]

theorem filter_orderedInsert_eq (x : ℚ) (d : Det) (hd : d.q = x) :
    ∀ l : List Det, (List.orderedInsert qDesc d l).filter (fun e => decide (e.q = x)) =
      d :: l.filter (fun e => decide (e.q = x)) := by
  intro l
  induction l with
  | nil => simp [List.orderedInsert, hd]
  | cons b t ih =>
    by_cases h : qDesc d b
    · simp [List.orderedInsert, h, List.filter_cons, hd]
    · have hbx : ¬ b.q = x := by
        unfold qDesc at h
        intro hbq
        exact h (le_of_eq (hbq.trans hd.symm))
      simp [List.orderedInsert, h, List.filter_cons, hbx, ih]

theorem filter_orderedInsert_ne (x : ℚ) (d : Det) (hd : ¬ d.q = x) :
    ∀ l : List Det, (List.orderedInsert qDesc d l).filter (fun e => decide (e.q = x)) =
      l.filter (fun e => decide (e.q = x)) := by
  intro l
  induction l with
  | nil => simp [List.orderedInsert, hd]
  | cons b t ih =>
    by_cases h : qDesc d b
    · simp [List.orderedInsert, h, List.filter_cons, hd]
    · simp [List.orderedInsert, h, List.filter_cons, ih]

theorem sortByQ_stable (dets : List Det) (x : ℚ) :
    (sortByQ dets).filter (fun e => decide (e.q = x)) =
      dets.filter (fun e => decide (e.q = x)) := by
  unfold sortByQ
  induction dets with
  | nil => rfl
  | cons d t ih =>
    simp only [List.insertionSort]
    by_cases hd : d.q = x
    · rw [filter_orderedInsert_eq x d hd, ih]
      simp [List.filter_cons, hd]
    · rw [filter_orderedInsert_ne x d hd, ih]
      simp [List.filter_cons, hd]

theorem specNMS_seed_mem (τ : ℚ) :
    ∀ n, ∀ L : List Det, L.length ≤ n → ∀ p ∈ specNMS τ L, p.1 ∈ L := by
  intro n
  induction n with
  | zero =>
    intro L h p hp
    have hnil : L = [] := List.eq_nil_of_length_eq_zero (by omega)
    subst hnil
    simp [specNMS] at hp
  | succ m ih =>
    intro L h p hp
    rcases L with _ | ⟨d, rest⟩
    · simp [specNMS] at hp
    · simp only [specNMS, List.mem_cons] at hp
      rcases hp with h1 | h2
      · rw [h1]
        exact List.mem_cons_self d rest
      · have hlen : (rest.filter fun e => !decide (τ < calcOverlap d e)).length ≤ m :=
          le_trans (List.length_filter_le _ _) (by simpa using Nat.le_of_succ_le_succ h)
        exact List.mem_cons_of_mem d (List.mem_of_mem_filter (ih _ hlen p h2))

theorem specNMS_seeds_sorted (τ : ℚ) :
    ∀ n, ∀ L : List Det, L.length ≤ n → L.Sorted qDesc →
      ((specNMS τ L).map Prod.fst).Sorted qDesc := by
  intro n
  induction n with
  | zero =>
    intro L h _
    have hnil : L = [] := List.eq_nil_of_length_eq_zero (by omega)
    subst hnil
    simp [specNMS]
  | succ m ih =>
    intro L h hsort
    rcases L with _ | ⟨d, rest⟩
    · simp [specNMS]
    · simp only [specNMS, List.map_cons]
      rw [List.sorted_cons]
      have hparts := List.sorted_cons.mp hsort
      have hlen : (rest.filter fun e => !decide (τ < calcOverlap d e)).length ≤ m :=
        le_trans (List.length_filter_le _ _) (by simpa using Nat.le_of_succ_le_succ h)
      constructor
      · intro e he
        simp only [List.mem_map] at he
        obtain ⟨p, hp, rfl⟩ := he
        exact hparts.1 p.1 (List.mem_of_mem_filter (specNMS_seed_mem τ m _ hlen p hp))
      · exact ih _ hlen (List.Pairwise.filter _ hparts.2)

/-- Claim C3: source clustering equals the claimed algorithm: stable sort by
descending quality (equal-quality detections keep their original relative
order), greedy clusters seeded by the highest-quality unconsumed detection,
members folded by overlap with the seed, floor-averaged representatives with
summed quality and the seed's angle, clusters in descending seed-quality
order. -/
theorem c3_clustering (dets : List Det) (τ : ℚ) :
    clusterDetections dets τ = (specNMS τ (sortByQ dets)).map Prod.snd ∧
    List.Sorted qDesc (sortByQ dets) ∧
    (sortByQ dets).Perm dets ∧
    (∀ x : ℚ, (sortByQ dets).filter (fun e => decide (e.q = x)) =
      dets.filter (fun e => decide (e.q = x))) ∧
    ((specNMS τ (sortByQ dets)).map Prod.fst).Sorted qDesc := by
  refine ⟨?_, ?_, ?_, fun x => sortByQ_stable dets x, ?_⟩
  · unfold clusterDetections
    rw [clusterLoop_eq_specNMS τ (sortByQ dets).length ((sortByQ dets).map fun d => (d, false))
        (by simp), live_map_false]
  · exact List.sorted_insertionSort qDesc dets
  · exact List.perm_insertionSort qDesc dets
  · exact specNMS_seeds_sorted τ (sortByQ dets).length (sortByQ dets) le_rfl
      (List.sorted_insertionSort qDesc dets)

theorem readFloats_err (b : List ℕ) :
    ∀ m : ℕ, 1 ≤ m → ∀ p : ℤ, (b.length : ℤ) < p + 4 * (m : ℤ) →
      readFloats b m p = Except.error CascadeError.rangeError := by
  intro m
  induction m with
  | zero => intro h; exact absurd h (by norm_num)
  | succ k ih =>
    intro _ p hlen
    by_cases hp : 0 ≤ p ∧ p + 4 ≤ (b.length : ℤ)
    · have hk : 1 ≤ k := by
        by_contra hk0
        push_neg at hk0
        have hk00 : k = 0 := by omega
        subst hk00
        push_cast at hlen
        omega
      simp only [readFloats, getF32Word, if_pos hp]
      rw [ih hk (p + 4) (by push_cast at hlen ⊢; omega)]
    · simp only [readFloats, getF32Word, if_neg hp]

theorem readFloats_ok (b : List ℕ) :
    ∀ m : ℕ, ∀ p : ℤ, 0 ≤ p → p + 4 * (m : ℤ) ≤ (b.length : ℤ) →
      ∃ ws, readFloats b m p = Except.ok (ws, p + 4 * (m : ℤ)) := by
  intro m
  induction m with
  | zero =>
    intro p hp hlen
    refine ⟨[], ?_⟩
    simp [readFloats]
  | succ k ih =>
    intro p hp hlen
    have hp4 : 0 ≤ p ∧ p + 4 ≤ (b.length : ℤ) := by
      push_cast at hlen
      constructor <;> omega
    obtain ⟨ws, hws⟩ := ih (p + 4) (by omega) (by push_cast at hlen ⊢; omega)
    refine ⟨word32At b p :: ws, ?_⟩
    simp only [readFloats, getF32Word, if_pos hp4, hws]
    rw [show p + 4 + 4 * (k : ℤ) = p + 4 * ((k + 1 : ℕ) : ℤ) by push_cast; ring]

theorem readTrees_err (b : List ℕ) (pow2 : ℤ) (hpow : 1 ≤ pow2) :
    ∀ k : ℕ, 1 ≤ k → ∀ p : ℤ, 0 ≤ p → (b.length : ℤ) < p + (k : ℤ) * (8 * pow2) →
      readTrees b pow2 k p = Except.error CascadeError.rangeError := by
  intro k
  induction k with
  | zero => intro h; exact absurd h (by norm_num)
  | succ kk ih =>
    intro _ p hp hlen
    have htn : ((pow2.toNat : ℕ) : ℤ) = pow2 := Int.toNat_of_nonneg (by omega)
    have hm1 : 1 ≤ pow2.toNat := by omega
    have hsplit : ((kk + 1 : ℕ) : ℤ) * (8 * pow2) = 8 * pow2 + (kk : ℤ) * (8 * pow2) := by
      push_cast
      ring
    rw [hsplit] at hlen
    by_cases hfl : p + (4 * pow2 - 4) + 4 * ((pow2.toNat : ℕ) : ℤ) ≤ (b.length : ℤ)
    · obtain ⟨ws, hws⟩ := readFloats_ok b pow2.toNat (p + (4 * pow2 - 4)) (by omega) hfl
      by_cases hth : 0 ≤ p + (4 * pow2 - 4) + 4 * ((pow2.toNat : ℕ) : ℤ) ∧
          p + (4 * pow2 - 4) + 4 * ((pow2.toNat : ℕ) : ℤ) + 4 ≤ (b.length : ℤ)
      · have hkk : 1 ≤ kk := by
          by_contra hk0
          push_neg at hk0
          have hk00 : kk = 0 := by omega
          subst hk00
          push_cast at hlen
          omega
        simp only [readTrees, hws, getF32Word, if_pos hth]
        rw [ih hkk (p + (4 * pow2 - 4) + 4 * ((pow2.toNat : ℕ) : ℤ) + 4) (by omega) (by omega)]
      · simp only [readTrees, hws, getF32Word, if_neg hth]
    · push_neg at hfl
      simp only [readTrees]
      rw [readFloats_err b pow2.toNat hm1 (p + (4 * pow2 - 4)) hfl]

/-- Claim C5 counterexample: `shortBuf` declares depth 0 and one tree, so the
declared layout is 24 bytes while the buffer has only 20; the source decoder
has no `MalformedCascade` error: decoding fails with the host `RangeError`
thrown by the out-of-range threshold read, so the result is not a
`MalformedCascade` failure. -/
theorem c5_counterexample :
    shortBuf.length < 24 ∧
    unpackCascade shortBuf ≠ Except.error CascadeError.malformedCascade := by
  constructor
  · decide
  · decide

/-- Claim C5 amended: for every buffer whose 16-byte header decodes to depth
`0 <= D <= 30` and tree count `T >= 1` and whose length is below the declared
layout `16 + T*(4*2^D - 4 + 4*2^D + 4)`, decoding fails at decode time with
the host RangeError raised by a bounds-checked DataView float read; the
tree-code byte copy is clamped without any check, and no `MalformedCascade`
error exists in the source. -/
theorem c5_decode_amended (b : List ℕ) (d t : ℤ)
    (hd : getInt32LE b 8 = Except.ok d) (ht : getInt32LE b 12 = Except.ok t)
    (hd0 : 0 ≤ d) (hd30 : d ≤ 30) (ht1 : 1 ≤ t)
    (hshort : (b.length : ℤ) < 16 + (t.toNat : ℤ) * (8 * 2 ^ d.toNat)) :
    unpackCascade b = Except.error CascadeError.rangeError := by
  have hpow : (1 : ℤ) ≤ 2 ^ d.toNat := by
    have := pow_pos (show (0 : ℤ) < 2 by norm_num) d.toNat
    omega
  have hj : jsShl1 d = 2 ^ d.toNat := by
    unfold jsShl1
    rw [Int.emod_eq_of_lt hd0 (by omega)]
    refine toInt32_eq_self (by omega) ?_
    have hle : (2 : ℤ) ^ d.toNat ≤ 2 ^ 30 :=
      pow_le_pow_right (by norm_num) (by omega)
    omega
  simp only [unpackCascade, hd, ht, hj]
  rw [readTrees_err b (2 ^ d.toNat) hpow t.toNat (by omega) 16 (by norm_num) hshort]

theorem c5_decode_amended_witness :
    getInt32LE shortBuf 8 = Except.ok 0 ∧
    getInt32LE shortBuf 12 = Except.ok 1 ∧
    (shortBuf.length : ℤ) < 16 + ((1 : ℤ).toNat : ℤ) * (8 * 2 ^ (0 : ℤ).toNat) ∧
    unpackCascade shortBuf = Except.error CascadeError.rangeError :=
  ⟨by decide, by decide, by decide,
    c5_decode_amended shortBuf 0 1 (by decide) (by decide) (by decide) (by decide)
      (by decide) (by decide)⟩
